import Mathlib

/-!
Formal model of the video-segments worker (src/index.js, consumer half and
Segmenter half).  The JavaScript is embedded shallowly: every pure fragment
of the source becomes a Lean function over `List Char` strings / lists, the
stateful orchestration becomes an explicit trace-producing function over an
environment that records the outcome of each external call, and a JavaScript
ReferenceError (dereference of an identifier that is defined nowhere in the
file) is modelled as a terminal `Outcome.crashed` carrying the identifier.
-/

/-- Convenience: the character list of a string literal. -/
def cs (s : String) : List Char := s.toList

/-- Decimal digit character, as printed by printf-style %d substitution. -/
def digitChar : Nat → Char
  | 0 => '0'
  | 1 => '1'
  | 2 => '2'
  | 3 => '3'
  | 4 => '4'
  | 5 => '5'
  | 6 => '6'
  | 7 => '7'
  | 8 => '8'
  | 9 => '9'
  | _ => '*'

/-- Fuel-indexed decimal printer (most significant digit first). -/
def decCharsAux : Nat → Nat → List Char
  | 0, _ => []
  | _ + 1, 0 => []
  | fuel + 1, n + 1 => decCharsAux fuel ((n + 1) / 10) ++ [digitChar ((n + 1) % 10)]

/-- Decimal representation of a natural number, as the external tool prints
the %d ordinal into a produced file name. -/
def decChars (n : Nat) : List Char :=
  if n = 0 then ['0'] else decCharsAux (n + 1) n

/-- Model of JavaScript parseInt applied to an all-digit decimal string
(the regular-expression capture group is always all digits). -/
def parseVal (l : List Char) : Nat :=
  l.foldl (fun a c => a * 10 + (c.toNat - 48)) 0

/-- Model of the first match of the regular expression pattern
underscore-digits (src/index.js line 257): scan left to right for the first
underscore that is immediately followed by at least one decimal digit and
return the maximal digit run after it. -/
def findUnderscoreDigits : List Char → Option (List Char)
  | [] => none
  | c :: rest =>
    if c = '_' ∧ ¬ (rest.takeWhile Char.isDigit).isEmpty then
      some (rest.takeWhile Char.isDigit)
    else findUnderscoreDigits rest

/-- Model of Node path.basename (posix): drop trailing separators, then take
the maximal separator-free suffix. -/
def basenameChars (l : List Char) : List Char :=
  (((l.reverse).dropWhile (fun c => c = '/')).takeWhile (fun c => ¬ (c = '/'))).reverse

/-- Model of Node path.extname restricted to a slash-free base name: the
suffix from the last dot, unless there is no dot, the last dot is the
leading character (dotfile rule), or the name is exactly two dots. -/
def extnameOfBase (b : List Char) : List Char :=
  if b.contains '.' = false then []
  else if b = ['.', '.'] then []
  else
    if (b.reverse.takeWhile (fun c => ¬ (c = '.'))).length + 1 = b.length then []
    else '.' :: (b.reverse.takeWhile (fun c => ¬ (c = '.'))).reverse

/-- Model of Node path.extname. -/
def extnameChars (p : List Char) : List Char := extnameOfBase (basenameChars p)

/-- Model of Node path.basename with an extension argument: the basename,
with the extension stripped when it is a proper suffix of the basename. -/
def basenameExtChars (p ext : List Char) : List Char :=
  if ext.isSuffixOf (basenameChars p) ∧ ¬ (ext = basenameChars p) then
    (basenameChars p).take ((basenameChars p).length - ext.length)
  else basenameChars p

/-- Model of JavaScript String.replace with a string pattern: replace the
first occurrence of the pattern (an empty pattern matches at position 0). -/
def jsReplaceFirst (s pat repl : List Char) : List Char :=
  if pat.isPrefixOf s then repl ++ s.drop pat.length
  else
    match s with
    | [] => s
    | c :: rest => c :: jsReplaceFirst rest pat repl

/-- Model of JavaScript Array.prototype.slice on its in-range uses. -/
def jsSlice (l : List α) (s e : Nat) : List α := (l.drop s).take (e - s)

/-- A JavaScript error value as the pipeline sees it: the truthiness of its
fatal property (an absent fatal property reads as false) and a tag telling
errors apart. -/
structure JsError where
  fatal : Bool
  tag : List Char
deriving DecidableEq

/-- Video metadata as returned by the probe; only the frame rate is ever
read by the source (src/index.js line 342, dead code). -/
structure Metadata where
  fps : Int
deriving DecidableEq

/-- A segment value as built by processSegment (src/index.js line 262). -/
structure Seg where
  idx : Nat
  uri : List Char
  fps : Int
deriving DecidableEq

/-- What the network does for one download: either an HTTP response with a
status code and content type arrives, or a connection-level failure (whose
error object carries no fatal property), or closing the destination file
fails. -/
inductive DlEvent where
  | response (status : Nat) (contentType : List Char)
  | transportError (tag : List Char)
  | closeError (tag : List Char)
deriving DecidableEq

/-- Model of downloadToLocal (src/index.js lines 109-143): a non-200 status
code produces an error whose fatal property is set to true; a request error
or a close error is forwarded to the callback unchanged, hence without a
fatal property. -/
def downloadToLocal : DlEvent → Except JsError (List Char)
  | .response status contentType =>
    if ¬ (200 = status) then
      .error { fatal := true, tag := cs ("Invalid status code") }
    else .ok contentType
  | .transportError tag => .error { fatal := false, tag := tag }
  | .closeError tag => .error { fatal := false, tag := tag }

/-- Model of getVideoMetadata (src/index.js lines 181-192): both the
rejection handler and the catch block forward the tool's error to the
callback unchanged; no fatal flag is ever attached. -/
def getVideoMetadata (toolResult : Except JsError Metadata) : Except JsError Metadata :=
  match toolResult with
  | .error e => .error e
  | .ok m => .ok m

/-- Model of extractSegments (src/index.js lines 154-173): the rejection
handler, the extraction callback and the catch block all forward the tool's
error to the callback unchanged; no fatal flag is ever attached. -/
def extractSegments (toolResult : Except JsError (List (List Char))) :
    Except JsError (List (List Char)) :=
  match toolResult with
  | .error e => .error e
  | .ok files => .ok files

/-- Model of the output name pattern built by extractSegments (src/index.js
lines 157-158), without the directory prefix that path.basename strips
again later: the basename of the video path with the first occurrence of
its extension replaced by an underscore, %d and a dot plus the format. -/
def framePatternName (videoPath format : List Char) : List Char :=
  jsReplaceFirst (basenameChars videoPath) (extnameChars videoPath)
    ('_' :: '%' :: 'd' :: '.' :: format)

/-- Modelled collaborator behavior: the external codec tool substitutes the
ordinal for %d in the pattern it is given (spec section 4.4). -/
def frameFileName (videoPath format : List Char) (i : Nat) : List Char :=
  jsReplaceFirst (framePatternName videoPath format) ('%' :: ['d']) (decChars i)

/-- Model of the frame-index parsing inside processSegment (src/index.js
lines 256-259): take the basename of the file, find the first match of the
underscore-digits pattern, and parse the captured digits as a decimal
integer. -/
def parseSegmentIdx (file : List Char) : Option Nat :=
  (findUnderscoreDigits (basenameChars file)).map parseVal

/-- Model of the object key computation of uploadToS3 (src/index.js lines
205-208) at its only call site (processSegment passes null for s3FileName,
so the file name is the basename of the local path); a falsy (empty)
subdirectory drops the prefix. -/
def uploadKeyFor (s3Subdir filePath : List Char) : List Char :=
  if s3Subdir = [] then basenameChars filePath
  else s3Subdir ++ '/' :: basenameChars filePath

/-- Model of the S3 subdirectory computed by downloadAndExtractToS3
(src/index.js line 340): the basename of the video URI without its
extension. -/
def s3DirOf (video_uri : List Char) : List Char :=
  basenameExtChars video_uri (extnameChars video_uri)

/-- One assignment of the result-merging loop (src/index.js line 367). -/
def segStep (acc : Nat → Option (List Char)) (f : Seg) : Nat → Option (List Char) :=
  fun k => if k = f.idx then some f.uri else acc k

/-- Merging of one batch's results into the accumulator object. -/
def mergeBatch (acc : Nat → Option (List Char)) (batch : List Seg) : Nat → Option (List Char) :=
  batch.foldl segStep acc

/-- Model of the result merge of downloadAndExtractToS3 (src/index.js lines
364-369): fold every batch's per-file results into one object keyed by
segment index. -/
def mergeResults (results : List (List Seg)) : Nat → Option (List Char) :=
  results.foldl mergeBatch (fun _ => none)

/-- Model of the batch construction loop of downloadAndExtractToS3
(src/index.js lines 345-356): batchNumber is the floor of length over
batchSize plus one, and batch i is the slice from i times batchSize to the
minimum of the next multiple and the length. -/
def mkBatches (l : List α) (b : Nat) : List (List α) :=
  (List.range (l.length / b + 1)).map
    (fun i => jsSlice l (i * b) (min ((i + 1) * b) l.length))

/-- Observable actions of one downloadAndExtractToS3 run: events emitted on
the segmenter, invocations of the completion callback, and calls of the two
temp-resource release functions. -/
inductive Ev where
  | emitError (e : JsError)
  | emitSegment (s : Seg)
  | emitEnd (res : List (Nat × List Char))
  | cbErr (e : JsError)
  | cbOk (res : List (Nat × List Char))
  | cleanupFile
  | cleanupDir
deriving DecidableEq

/-- How one run ends: the enclosing call returns normally, or an uncaught
JavaScript ReferenceError about the named identifier aborts it. -/
inductive Outcome where
  | returned
  | crashed (ident : List Char)
deriving DecidableEq

/-- The outcomes of the external calls one job can make: creating the temp
file, the network activity of the download, the metadata probe, and
creating the temp directory.  (The stages after these are unreachable in
the source, see downloadAndExtractToS3 below.) -/
instance exceptDecEq {ε α : Type} [DecidableEq ε] [DecidableEq α] :
    DecidableEq (Except ε α) := fun a b =>
  match a, b with
  | .error x, .error y =>
    decidable_of_iff (x = y) (by constructor <;> intro h <;> (first | rw [h] | (cases h; rfl)))
  | .error _, .ok _ => isFalse (by intro h; cases h)
  | .ok _, .error _ => isFalse (by intro h; cases h)
  | .ok x, .ok y =>
    decidable_of_iff (x = y) (by constructor <;> intro h <;> (first | rw [h] | (cases h; rfl)))

structure Env where
  tmpFile : Option JsError
  dl : DlEvent
  probe : Except JsError Metadata
  tmpDir : Option JsError
deriving DecidableEq

/-- Model of the local handleError of downloadAndExtractToS3 (src/index.js
lines 305-311): emit the error event, then invoke the callback with the
error. -/
def handleErrorTrace (e : JsError) : List Ev := [.emitError e, .cbErr e]

/-- Model of Segmenter.prototype.downloadAndExtractToS3 (src/index.js lines
299-386).  Control flow of the source: a tmp.file error is handed to
handleError; a download error is handed to handleError; the
getVideoMetadata callback (line 322) never examines its error argument and
always proceeds; a tmp.dir error is handed to handleError; then line 329
evaluates path.extname(videoUri), and the identifier videoUri is defined
nowhere in the file (the parameter is named video_uri), so a ReferenceError
is thrown and nothing after it — extraction, the cleanup calls, the upload
batches, the end event, the success callback — ever executes. -/
def downloadAndExtractToS3 (env : Env) : List Ev × Outcome :=
  match env.tmpFile with
  | some e => (handleErrorTrace e, .returned)
  | none =>
    match downloadToLocal env.dl with
    | .error e => (handleErrorTrace e, .returned)
    | .ok _contentType =>
      match env.tmpDir with
      | some e => (handleErrorTrace e, .returned)
      | none => ([], .crashed (cs ("videoUri")))

/-- Model of the completion callback of the queue consumer (src/index.js
lines 44-53): when the error is truthy and its fatal property is falsy the
handler returns without finishing the message; in every other case —
success, or an error whose fatal property is truthy — it calls
msg.finish().  The result is true exactly when msg.finish() is called. -/
def videoHandlerFinishes (err : Option JsError) : Bool :=
  match err with
  | some e => if ¬ e.fatal then false else true
  | none => true

theorem mkBatches_small {α : Type} (b : Nat) (l : List α) (h : l.length < b) :
    mkBatches l b = [l] := by
  have h0 : l.length / b = 0 := Nat.div_eq_of_lt h
  unfold mkBatches jsSlice
  rw [h0, show List.range (0 + 1) = [0] from rfl]
  simp only [List.map_cons, List.map_nil, Nat.zero_mul, List.drop_zero, Nat.sub_zero,
    Nat.zero_add, Nat.one_mul]
  rw [Nat.min_eq_right (Nat.le_of_lt h), List.take_length]

theorem mkBatches_cons {α : Type} (b : Nat) (hb : 1 ≤ b) (l : List α) (h : b ≤ l.length) :
    mkBatches l b = l.take b :: mkBatches (l.drop b) b := by
  have hdiv : l.length / b = (l.length - b) / b + 1 := Nat.div_eq_sub_div (by omega) h
  have hlen : (l.drop b).length = l.length - b := List.length_drop b l
  unfold mkBatches
  rw [hlen, hdiv, List.range_succ_eq_map, List.map_cons, List.map_map]
  congr 1
  · simp only [jsSlice, Nat.zero_mul, Nat.one_mul, List.drop_zero, Nat.sub_zero,
      Nat.zero_add]
    rw [Nat.min_eq_left h]
  · apply List.map_congr_left
    intro i _
    simp only [Function.comp_apply, jsSlice, List.drop_drop, Nat.succ_eq_add_one]
    have e1 : (i + 1) * b = i * b + b := by ring
    have e2 : (i + 1 + 1) * b = i * b + b + b := by ring
    rw [e1, e2, Nat.add_comm b (i * b)]
    congr 1
    generalize i * b = j
    omega

theorem mkBatches_flatten {α : Type} (b : Nat) (hb : 1 ≤ b) (l : List α) :
    (mkBatches l b).flatten = l := by
  by_cases h : b ≤ l.length
  · have ih := mkBatches_flatten b hb (l.drop b)
    rw [mkBatches_cons b hb l h, List.flatten_cons, ih, List.take_append_drop]
  · rw [mkBatches_small b l (by omega)]
    simp
termination_by l.length
decreasing_by
  simp only [List.length_drop]
  omega

theorem mkBatches_length {α : Type} (b : Nat) (l : List α) :
    (mkBatches l b).length = l.length / b + 1 := by
  simp [mkBatches]

theorem mkBatches_batch_le {α : Type} (b : Nat) (l : List α) :
    ∀ batch ∈ mkBatches l b, batch.length ≤ b := by
  intro batch hm
  simp only [mkBatches, List.mem_map, List.mem_range] at hm
  obtain ⟨i, _, rfl⟩ := hm
  simp only [jsSlice, List.length_take, List.length_drop]
  have e1 : (i + 1) * b = i * b + b := by ring
  rw [e1]
  generalize i * b = j
  omega

theorem mergeBatch_isSome (batch : List Seg) :
    ∀ (acc : Nat → Option (List Char)) (k : Nat),
      (mergeBatch acc batch k).isSome = true ↔
        (∃ f ∈ batch, f.idx = k) ∨ (acc k).isSome = true := by
  induction batch with
  | nil =>
    intro acc k
    simp [mergeBatch]
  | cons f t ih =>
    intro acc k
    simp only [mergeBatch, List.foldl_cons] at *
    rw [ih (segStep acc f) k]
    by_cases hk : k = f.idx
    · subst hk
      simp [segStep]
    · simp only [segStep, if_neg hk, List.mem_cons]
      constructor
      · rintro (hex | hacc)
        · exact Or.inl (by obtain ⟨g, hg, he⟩ := hex; exact ⟨g, Or.inr hg, he⟩)
        · exact Or.inr hacc
      · rintro (⟨g, hg | hg, he⟩ | hacc)
        · subst hg; exact absurd he.symm hk
        · exact Or.inl ⟨g, hg, he⟩
        · exact Or.inr hacc

theorem mergeBatch_eq_some (batch : List Seg) :
    ∀ (acc : Nat → Option (List Char)) (k : Nat) (u : List Char),
      mergeBatch acc batch k = some u →
        (∃ f ∈ batch, f.idx = k ∧ f.uri = u) ∨ acc k = some u := by
  induction batch with
  | nil =>
    intro acc k u h
    exact Or.inr h
  | cons f t ih =>
    intro acc k u h
    simp only [mergeBatch, List.foldl_cons] at h
    rcases ih (segStep acc f) k u h with hex | hacc
    · obtain ⟨g, hg, he⟩ := hex
      exact Or.inl ⟨g, List.mem_cons_of_mem f hg, he⟩
    · by_cases hk : k = f.idx
      · subst hk
        simp only [segStep, eq_self_iff_true, if_true, Option.some_inj] at hacc
        exact Or.inl ⟨f, List.mem_cons_self f t, rfl, hacc⟩
      · simp only [segStep, if_neg hk] at hacc
        exact Or.inr hacc

theorem foldl_mergeBatch_isSome (results : List (List Seg)) :
    ∀ (acc : Nat → Option (List Char)) (k : Nat),
      ((results.foldl mergeBatch acc) k).isSome = true ↔
        (∃ bt ∈ results, ∃ f ∈ bt, f.idx = k) ∨ (acc k).isSome = true := by
  induction results with
  | nil =>
    intro acc k
    simp
  | cons bt ts ih =>
    intro acc k
    simp only [List.foldl_cons]
    rw [ih (mergeBatch acc bt) k, mergeBatch_isSome bt acc k]
    simp only [List.mem_cons]
    constructor
    · rintro (⟨b2, hb2, hf⟩ | hex | hacc)
      · exact Or.inl ⟨b2, Or.inr hb2, hf⟩
      · exact Or.inl ⟨bt, Or.inl rfl, hex⟩
      · exact Or.inr hacc
    · rintro (⟨b2, hb2 | hb2, hf⟩ | hacc)
      · subst hb2; exact Or.inr (Or.inl hf)
      · exact Or.inl ⟨b2, hb2, hf⟩
      · exact Or.inr (Or.inr hacc)

theorem foldl_mergeBatch_eq_some (results : List (List Seg)) :
    ∀ (acc : Nat → Option (List Char)) (k : Nat) (u : List Char),
      (results.foldl mergeBatch acc) k = some u →
        (∃ bt ∈ results, ∃ f ∈ bt, f.idx = k ∧ f.uri = u) ∨ acc k = some u := by
  induction results with
  | nil =>
    intro acc k u h
    exact Or.inr h
  | cons bt ts ih =>
    intro acc k u h
    simp only [List.foldl_cons] at h
    rcases ih (mergeBatch acc bt) k u h with hex | hacc
    · obtain ⟨b2, hb2, hf⟩ := hex
      exact Or.inl ⟨b2, List.mem_cons_of_mem bt hb2, hf⟩
    · rcases mergeBatch_eq_some bt acc k u hacc with hex | hacc2
      · exact Or.inl ⟨bt, List.mem_cons_self bt ts, hex⟩
      · exact Or.inr hacc2

theorem mergeResults_isSome (results : List (List Seg)) (k : Nat) :
    ((mergeResults results) k).isSome = true ↔ ∃ bt ∈ results, ∃ f ∈ bt, f.idx = k := by
  rw [mergeResults, foldl_mergeBatch_isSome]
  simp

theorem mergeResults_eq_some (results : List (List Seg)) (k : Nat) (u : List Char) :
    (mergeResults results) k = some u → ∃ bt ∈ results, ∃ f ∈ bt, f.idx = k ∧ f.uri = u := by
  intro h
  rcases foldl_mergeBatch_eq_some results (fun _ => none) k u h with hex | hacc
  · exact hex
  · cases hacc

theorem digitChar_toNat (d : Nat) (h : d < 10) : (digitChar d).toNat - 48 = d := by
  interval_cases d <;> decide

theorem digitChar_isDigit (d : Nat) (h : d < 10) : (digitChar d).isDigit = true := by
  interval_cases d <;> decide

theorem digitChar_ne_slash (d : Nat) (h : d < 10) : ¬ (digitChar d = '/') := by
  interval_cases d <;> decide

theorem decCharsAux_eq (fuel : Nat) :
    ∀ n : Nat, n ≤ fuel → decCharsAux fuel n = ((Nat.digits 10 n).reverse).map digitChar := by
  induction fuel with
  | zero =>
    intro n hn
    interval_cases n
    simp [decCharsAux]
  | succ fuel ih =>
    intro n hn
    cases n with
    | zero => simp [decCharsAux]
    | succ m =>
      rw [decCharsAux, ih ((m + 1) / 10) (by
        have := Nat.div_lt_self (Nat.succ_pos m) (by norm_num : 1 < 10)
        omega)]
      rw [Nat.digits_def' (by norm_num : 1 < 10) (Nat.succ_pos m)]
      simp

theorem decChars_pos_eq (n : Nat) (h : 0 < n) :
    decChars n = ((Nat.digits 10 n).reverse).map digitChar := by
  rw [decChars, if_neg (by omega)]
  exact decCharsAux_eq (n + 1) n (by omega)

theorem parseVal_foldl (ds : List Nat) :
    ∀ a : Nat, (∀ d ∈ ds, d < 10) →
      List.foldl (fun a c => a * 10 + (c.toNat - 48)) a (ds.map digitChar) =
        Nat.ofDigits 10 ds.reverse + a * 10 ^ ds.length := by
  induction ds with
  | nil =>
    intro a _
    simp [Nat.ofDigits]
  | cons d t ih =>
    intro a hall
    simp only [List.map_cons, List.foldl_cons]
    rw [digitChar_toNat d (hall d (List.mem_cons_self d t)),
      ih (a * 10 + d) (fun x hx => hall x (List.mem_cons_of_mem d hx))]
    rw [List.reverse_cons, Nat.ofDigits_append, Nat.ofDigits_singleton,
      List.length_reverse, List.length_cons]
    ring

theorem parseVal_decChars (n : Nat) : parseVal (decChars n) = n := by
  by_cases h : n = 0
  · subst h
    decide
  · rw [decChars_pos_eq n (by omega), parseVal]
    rw [parseVal_foldl (Nat.digits 10 n).reverse 0
      (fun d hd => Nat.digits_lt_base (by norm_num) (List.mem_reverse.mp hd))]
    rw [List.reverse_reverse, Nat.ofDigits_digits]
    ring

theorem decChars_ne_nil (n : Nat) : ¬ (decChars n = []) := by
  by_cases h : n = 0
  · subst h; decide
  · rw [decChars_pos_eq n (by omega)]
    intro hc
    simp only [List.map_eq_nil_iff, List.reverse_eq_nil_iff] at hc
    exact h (Nat.digits_eq_nil_iff_eq_zero.mp hc)

theorem decChars_all_digits (n : Nat) : ∀ c ∈ decChars n, c.isDigit = true := by
  by_cases h : n = 0
  · subst h; decide
  · rw [decChars_pos_eq n (by omega)]
    intro c hc
    simp only [List.mem_map, List.mem_reverse] at hc
    obtain ⟨d, hd, rfl⟩ := hc
    exact digitChar_isDigit d (Nat.digits_lt_base (by norm_num) hd)

theorem decChars_no_slash (n : Nat) : ∀ c ∈ decChars n, ¬ (c = '/') := by
  by_cases h : n = 0
  · subst h; decide
  · rw [decChars_pos_eq n (by omega)]
    intro c hc
    simp only [List.mem_map, List.mem_reverse] at hc
    obtain ⟨d, hd, rfl⟩ := hc
    exact digitChar_ne_slash d (Nat.digits_lt_base (by norm_num) hd)

theorem takeWhile_all_append (p : Char → Bool) (l : List Char) (c : Char) (m : List Char)
    (hl : ∀ x ∈ l, p x = true) (hc : p c = false) :
    (l ++ c :: m).takeWhile p = l := by
  induction l with
  | nil => simp [List.takeWhile_cons_of_neg, hc]
  | cons a t ih =>
    rw [List.cons_append, List.takeWhile_cons_of_pos (hl a (List.mem_cons_self a t))]
    rw [ih (fun x hx => hl x (List.mem_cons_of_mem a hx))]

theorem takeWhile_isEmpty_append (p : Char → Bool) (t : List Char) (c0 : Char)
    (r : List Char) (hc0 : p c0 = false) (h : (t.takeWhile p).isEmpty = true) :
    ((t ++ c0 :: r).takeWhile p).isEmpty = true := by
  cases t with
  | nil => rw [List.nil_append, List.takeWhile_cons_of_neg (by simp [hc0])]; rfl
  | cons e t2 =>
    by_cases he : p e = true
    · rw [List.takeWhile_cons_of_pos he] at h
      simp [List.isEmpty] at h
    · rw [List.cons_append, List.takeWhile_cons_of_neg (by simp [he])]
      rfl

theorem findUD_name (stem ds fmt : List Char)
    (h : findUnderscoreDigits stem = none) (hne : ¬ (ds = []))
    (hall : ∀ c ∈ ds, c.isDigit = true) :
    findUnderscoreDigits (stem ++ '_' :: (ds ++ '.' :: fmt)) = some ds := by
  induction stem with
  | nil =>
    rw [List.nil_append, findUnderscoreDigits]
    rw [takeWhile_all_append Char.isDigit ds '.' fmt hall (by decide)]
    rw [if_pos ⟨rfl, by intro hemp; exact hne (List.isEmpty_iff.mp hemp)⟩]
  | cons c t ih =>
    rw [findUnderscoreDigits] at h
    by_cases hc : c = '_' ∧ ¬ (t.takeWhile Char.isDigit).isEmpty
    · rw [if_pos hc] at h
      cases h
    · rw [if_neg hc] at h
      rw [List.cons_append, findUnderscoreDigits, if_neg ?ncond]
      · exact ih h
      · rintro ⟨hcu, hne2⟩
        apply hne2
        apply takeWhile_isEmpty_append Char.isDigit t '_' (ds ++ '.' :: fmt) (by decide)
        by_cases hemp : (t.takeWhile Char.isDigit).isEmpty = true
        · exact hemp
        · exact absurd ⟨hcu, hemp⟩ hc

theorem dropWhile_none (p : Char → Bool) (l : List Char) (h : ∀ x ∈ l, p x = false) :
    l.dropWhile p = l := by
  cases l with
  | nil => rfl
  | cons a t => rw [List.dropWhile_cons_of_neg (by simp [h a (List.mem_cons_self a t)])]

theorem takeWhile_all (p : Char → Bool) (l : List Char) (h : ∀ x ∈ l, p x = true) :
    l.takeWhile p = l := by
  induction l with
  | nil => rfl
  | cons a t ih =>
    rw [List.takeWhile_cons_of_pos (h a (List.mem_cons_self a t))]
    rw [ih (fun x hx => h x (List.mem_cons_of_mem a hx))]

theorem basenameChars_eq_self (m : List Char) (h : ∀ c ∈ m, ¬ (c = '/')) :
    basenameChars m = m := by
  unfold basenameChars
  rw [dropWhile_none _ m.reverse (by
    intro x hx
    simp only [decide_eq_false_iff_not]
    exact h x (List.mem_reverse.mp hx))]
  rw [takeWhile_all _ m.reverse (by
    intro x hx
    simp only [decide_eq_true_eq]
    exact h x (List.mem_reverse.mp hx))]
  exact List.reverse_reverse m

/-- Claim C1 counterexample: a job whose download returns HTTP 404 fails
with a fatal-classified error (fatal true), and for exactly that error the
consumer's completion callback does call msg.finish() — it acknowledges the
message instead of leaving it un-acknowledged. -/
theorem consumer_acks_fatal_counterexample :
    (Ev.cbErr { fatal := true, tag := cs ("Invalid status code") }) ∈
      (downloadAndExtractToS3
        { tmpFile := none, dl := .response 404 (cs ("text/html")),
          probe := .ok { fps := 30 }, tmpDir := none }).1 ∧
    videoHandlerFinishes (some { fatal := true, tag := cs ("Invalid status code") }) = true ∧
    videoHandlerFinishes (some { fatal := false, tag := cs ("ECONNRESET") }) = false := by
  decide

/-- Claim C1 (corrected): the consumer's ack decision does depend on the
classification — msg.finish() is called exactly when the pipeline succeeded
or its error has a truthy fatal flag, and only a non-fatal error leaves the
message un-acknowledged. -/
theorem consumer_ack_decision :
    (∀ e : JsError, videoHandlerFinishes (some e) = e.fatal) ∧
    videoHandlerFinishes none = true := by
  constructor
  · intro e
    cases hf : e.fatal <;> simp [videoHandlerFinishes, hf]
  · rfl

/-- Claim C2 counterexample: on a job whose download fails with a transport
error, the temp video file has been acquired, the callback is invoked with
the error, and neither release function is ever called on that exit path. -/
theorem cleanup_skipped_counterexample :
    (Ev.cbErr { fatal := false, tag := cs ("ECONNRESET") }) ∈
      (downloadAndExtractToS3
        { tmpFile := none, dl := .transportError (cs ("ECONNRESET")),
          probe := .ok { fps := 30 }, tmpDir := none }).1 ∧
    ¬ (Ev.cleanupFile ∈
      (downloadAndExtractToS3
        { tmpFile := none, dl := .transportError (cs ("ECONNRESET")),
          probe := .ok { fps := 30 }, tmpDir := none }).1) ∧
    ¬ (Ev.cleanupDir ∈
      (downloadAndExtractToS3
        { tmpFile := none, dl := .transportError (cs ("ECONNRESET")),
          probe := .ok { fps := 30 }, tmpDir := none }).1) := by
  decide

/-- Claim C2 (corrected): the orchestrator never calls either release
function on any path — the only call sites (after extraction resolves, and
after all upload batches succeed) lie beyond the undefined-identifier crash
and the early error returns, so temp-resource deletion is left entirely to
the tmp library's process-exit graceful cleanup. -/
theorem cleanup_never_called (env : Env) :
    Ev.cleanupFile ∉ (downloadAndExtractToS3 env).1 ∧
    Ev.cleanupDir ∉ (downloadAndExtractToS3 env).1 := by
  obtain ⟨tf, dl, pr, td⟩ := env
  rcases tf with _ | e1
  · rcases hdl : downloadToLocal dl with e2 | ct <;>
      simp only [downloadAndExtractToS3, hdl] <;>
      rcases td with _ | e3 <;>
      simp [handleErrorTrace]
  · simp [downloadAndExtractToS3, handleErrorTrace]

/-- Claim C3 counterexample: with batch_size 10 and 10 extracted files the
code builds 2 batches (the second one empty), not the claimed
ceil(10 / 10) = 1 consecutive batches. -/
theorem batch_count_counterexample :
    (mkBatches (List.replicate 10 (cs ("f"))) 10).length = 2 ∧
    ¬ ((mkBatches (List.replicate 10 (cs ("f"))) 10).length = (10 + 10 - 1) / 10) := by
  decide

/-- Claim C3 (corrected): for every batch_size b at least 1 and every file
list, the code builds exactly floor(length / b) + 1 consecutive batches of
at most b files each whose concatenation is the input list (so order is
preserved and every file appears in exactly one batch); the count equals
ceil(length / b) exactly when b does not divide the length, and is one
greater — a trailing empty batch — when b divides it, including the
degenerate empty-list case producing one empty batch. -/
theorem batching_structure (b : Nat) (hb : 1 ≤ b) (l : List (List Char)) :
    (mkBatches l b).length = l.length / b + 1 ∧
    (mkBatches l b).flatten = l ∧
    ∀ batch ∈ mkBatches l b, batch.length ≤ b :=
  ⟨mkBatches_length b l, mkBatches_flatten b hb l, mkBatches_batch_le b l⟩

/-- Claim C3 witness: the amended statement instantiated at batch size 10
and a 25-file list. -/
theorem batching_structure_witness :
    (1 : Nat) ≤ 10 ∧
    ((mkBatches (List.replicate 25 (cs ("f"))) 10).length =
        (List.replicate 25 (cs ("f"))).length / 10 + 1 ∧
      (mkBatches (List.replicate 25 (cs ("f"))) 10).flatten = List.replicate 25 (cs ("f")) ∧
      ∀ batch ∈ mkBatches (List.replicate 25 (cs ("f"))) 10, batch.length ≤ 10) :=
  ⟨by decide, batching_structure 10 (by decide) (List.replicate 25 (cs ("f")))⟩

/-- Claim C4: the merged Job Result object is defined at an index exactly
when some batch holds a per-file result with that embedded index — no more,
no fewer — and every value it holds is the uri of such a result, merged
across every batch. -/
theorem job_result_keys :
    (∀ (results : List (List Seg)) (k : Nat),
      ((mergeResults results) k).isSome = true ↔ ∃ bt ∈ results, ∃ f ∈ bt, f.idx = k) ∧
    (∀ (results : List (List Seg)) (k : Nat) (u : List Char),
      (mergeResults results) k = some u →
        ∃ bt ∈ results, ∃ f ∈ bt, f.idx = k ∧ f.uri = u) :=
  ⟨mergeResults_isSome, mergeResults_eq_some⟩

/-- Claim C4 witness: the merge evaluated on two concrete batches. -/
theorem job_result_keys_witness :
    mergeResults [[Seg.mk 1 (cs ("u1")) 30], [Seg.mk 2 (cs ("u2")) 30]] 2 = some (cs ("u2")) ∧
    (∃ bt ∈ [[Seg.mk 1 (cs ("u1")) 30], [Seg.mk 2 (cs ("u2")) 30]],
      ∃ f ∈ bt, f.idx = 2 ∧ f.uri = cs ("u2")) :=
  ⟨by decide,
    job_result_keys.2 [[Seg.mk 1 (cs ("u1")) 30], [Seg.mk 2 (cs ("u2")) 30]] 2 (cs ("u2"))
      (by decide)⟩

/-- Claim C5: every response whose status code is outside the 2xx range is
classified fatal (the code actually tests for exactly 200, and every
non-2xx code differs from 200), and every connection-level transport
failure is forwarded with a falsy fatal flag, hence non-fatal. -/
theorem download_classification :
    (∀ (status : Nat) (ct : List Char), status < 200 ∨ 300 ≤ status →
      ∃ e, downloadToLocal (.response status ct) = .error e ∧ e.fatal = true) ∧
    (∀ tag : List Char,
      ∃ e, downloadToLocal (.transportError tag) = .error e ∧ e.fatal = false) := by
  constructor
  · intro status ct h
    refine ⟨{ fatal := true, tag := cs ("Invalid status code") }, ?_, rfl⟩
    simp only [downloadToLocal]
    rw [if_pos (by omega)]
  · intro tag
    exact ⟨{ fatal := false, tag := tag }, rfl, rfl⟩

/-- Claim C5 witness: the classification evaluated at status 404. -/
theorem download_classification_witness :
    ((404 : Nat) < 200 ∨ 300 ≤ 404) ∧
    (∃ e, downloadToLocal (.response 404 (cs ("text/html"))) = .error e ∧ e.fatal = true) :=
  ⟨by decide, download_classification.1 404 (cs ("text/html")) (by decide)⟩

/-- Claim C6 counterexample: on a job whose metadata probe fails (after a
successful download), the run emits no event at all, never invokes the
callback — in particular it reports no fatal-classified error — and aborts
on the undefined identifier videoUri exactly as it would on probe
success. -/
theorem probe_failure_unreported_counterexample :
    downloadAndExtractToS3
      { tmpFile := none, dl := .response 200 (cs ("video/mp4")),
        probe := .error { fatal := false, tag := cs ("ffmpeg failure") }, tmpDir := none } =
      ([], Outcome.crashed (cs ("videoUri"))) ∧
    downloadAndExtractToS3
      { tmpFile := none, dl := .response 200 (cs ("video/mp4")),
        probe := .error { fatal := false, tag := cs ("ffmpeg failure") }, tmpDir := none } =
    downloadAndExtractToS3
      { tmpFile := none, dl := .response 200 (cs ("video/mp4")),
        probe := .ok { fps := 30 }, tmpDir := none } := by
  decide

/-- Claim C6 (corrected): getVideoMetadata forwards the probe tool's error
unchanged (no fatal flag is attached), and the orchestrator's probe
callback never examines its error argument, so the run is entirely
independent of the probe's outcome; no probe failure is ever classified,
reported, or allowed to short-circuit anything. -/
theorem probe_error_ignored :
    (∀ (env : Env) (p1 p2 : Except JsError Metadata),
      downloadAndExtractToS3 { env with probe := p1 } =
        downloadAndExtractToS3 { env with probe := p2 }) ∧
    (∀ e : JsError, getVideoMetadata (.error e) = .error e) := by
  constructor
  · intro env p1 p2
    rfl
  · intro e
    rfl

/-- Claim C7 counterexample: an extraction-tool failure whose error has no
fatal flag is handed to the pipeline's callback with the flag still falsy;
extraction failures are not reported as fatal. -/
theorem extraction_error_not_fatal_counterexample :
    extractSegments (.error { fatal := false, tag := cs ("ffmpeg crash") }) =
      .error { fatal := false, tag := cs ("ffmpeg crash") } ∧
    ¬ (({ fatal := false, tag := cs ("ffmpeg crash") } : JsError).fatal = true) := by
  decide

/-- Claim C7 (corrected): extractSegments forwards every tool failure to
its callback unchanged — with whatever fatal flag the tool's error already
had, so an ordinary tool error is non-fatal — and no upload is ever
attempted after an extraction failure, indeed no segment upload event
occurs on any run of the orchestrator. -/
theorem extraction_error_forwarded :
    (∀ e : JsError, extractSegments (.error e) = .error e) ∧
    (∀ (env : Env) (s : Seg), Ev.emitSegment s ∉ (downloadAndExtractToS3 env).1) := by
  constructor
  · intro e
    rfl
  · intro env s
    obtain ⟨tf, dl, pr, td⟩ := env
    rcases tf with _ | e1
    · rcases hdl : downloadToLocal dl with e2 | ct <;>
        simp only [downloadAndExtractToS3, hdl] <;>
        rcases td with _ | e3 <;>
        simp [handleErrorTrace]
    · simp [downloadAndExtractToS3, handleErrorTrace]

/-- Claim C8 counterexample: the naming pattern can produce the frame file
vid_2_3.jpg (source video vid_2.mp4, embedded ordinal 3), but the parsing
in processSegment takes the first underscore-digits group of the base name
and yields segment index 2, not the embedded 3. -/
theorem segment_idx_counterexample :
    frameFileName (cs ("vid_2.mp4")) (cs ("jpg")) 3 = cs ("vid_2_3.jpg") ∧
    parseSegmentIdx (frameFileName (cs ("vid_2.mp4")) (cs ("jpg")) 3) = some 2 ∧
    ¬ ((2 : Nat) = 3) := by
  decide

/-- Claim C8 (corrected): the parsed segment index is the first
underscore-digits group of the file's base name; it equals the embedded
ordinal exactly for names whose stem contains no earlier underscore-digits
occurrence — for every such slash-free stem, format and ordinal i, parsing
the produced name stem_i.format yields i. -/
theorem segment_idx_parsing (stem fmt : List Char) (i : Nat)
    (hstem : findUnderscoreDigits stem = none)
    (hs : ∀ c ∈ stem, ¬ (c = '/')) (hf : ∀ c ∈ fmt, ¬ (c = '/')) :
    parseSegmentIdx (stem ++ '_' :: (decChars i ++ '.' :: fmt)) = some i := by
  have hb : basenameChars (stem ++ '_' :: (decChars i ++ '.' :: fmt)) =
      stem ++ '_' :: (decChars i ++ '.' :: fmt) := by
    apply basenameChars_eq_self
    intro c hc
    simp only [List.mem_append, List.mem_cons] at hc
    rcases hc with hc | hc | hc
    · exact hs c hc
    · subst hc; decide
    · rcases hc with hc | hc | hc
      · exact decChars_no_slash i c hc
      · subst hc; decide
      · exact hf c hc
  rw [parseSegmentIdx, hb,
    findUD_name stem (decChars i) fmt hstem (decChars_ne_nil i) (decChars_all_digits i)]
  simp only [Option.map]
  rw [parseVal_decChars i]

/-- Claim C8 witness: the amended parsing statement instantiated at stem
movie, format jpg and ordinal 7. -/
theorem segment_idx_parsing_witness :
    findUnderscoreDigits (cs ("movie")) = none ∧
    (∀ c ∈ cs ("movie"), ¬ (c = '/')) ∧
    (∀ c ∈ cs ("jpg"), ¬ (c = '/')) ∧
    parseSegmentIdx (cs ("movie") ++ '_' :: (decChars 7 ++ '.' :: cs ("jpg"))) = some 7 :=
  ⟨by decide, by decide, by decide,
    segment_idx_parsing (cs ("movie")) (cs ("jpg")) 7 (by decide) (by decide) (by decide)⟩

/-- Claim C9: no run of the orchestrator ever invokes the success callback
or emits the end event, and whenever the temp file is created, the download
succeeds and the temp directory is created, the run aborts with the
ReferenceError on the undefined identifier videoUri — the success path can
never run to completion and a Job Result is never returned. -/
theorem success_path_crashes (env : Env) :
    (∀ r, Ev.cbOk r ∉ (downloadAndExtractToS3 env).1) ∧
    (∀ r, Ev.emitEnd r ∉ (downloadAndExtractToS3 env).1) ∧
    (env.tmpFile = none → (∃ ct, downloadToLocal env.dl = .ok ct) → env.tmpDir = none →
      downloadAndExtractToS3 env = ([], .crashed (cs ("videoUri")))) := by
  obtain ⟨tf, dl, pr, td⟩ := env
  refine ⟨?_, ?_, ?_⟩
  · intro r
    rcases tf with _ | e1
    · rcases hdl : downloadToLocal dl with e2 | ct <;>
        simp only [downloadAndExtractToS3, hdl] <;>
        rcases td with _ | e3 <;>
        simp [handleErrorTrace]
    · simp [downloadAndExtractToS3, handleErrorTrace]
  · intro r
    rcases tf with _ | e1
    · rcases hdl : downloadToLocal dl with e2 | ct <;>
        simp only [downloadAndExtractToS3, hdl] <;>
        rcases td with _ | e3 <;>
        simp [handleErrorTrace]
    · simp [downloadAndExtractToS3, handleErrorTrace]
  · rintro htf ⟨ct, hdl⟩ htd
    simp only at htf htd
    subst htf
    subst htd
    simp only [downloadAndExtractToS3, hdl]

/-- Claim C9 witness: the crash statement instantiated at a fully
successful environment. -/
theorem success_path_crashes_witness :
    downloadAndExtractToS3
      { tmpFile := none, dl := .response 200 (cs ("video/mp4")),
        probe := .ok { fps := 30 }, tmpDir := none } =
      ([], .crashed (cs ("videoUri"))) :=
  (success_path_crashes
    { tmpFile := none, dl := .response 200 (cs ("video/mp4")),
      probe := .ok { fps := 30 }, tmpDir := none }).2.2 rfl ⟨cs ("video/mp4"), by decide⟩ rfl

/-- Claim C10: whenever the computed subdirectory (the video URI's basename
without its extension) is non-empty, every frame file's object key is that
subdirectory, a slash, and the frame file's basename; in particular source
movie.mp4 with frame file movie_3.jpg yields key movie/movie_3.jpg. -/
theorem upload_key_layout :
    (∀ (video_uri file : List Char), ¬ (s3DirOf video_uri = []) →
      uploadKeyFor (s3DirOf video_uri) file = s3DirOf video_uri ++ '/' :: basenameChars file) ∧
    uploadKeyFor (s3DirOf (cs ("https://host/movie.mp4"))) (cs ("/tmp/x/movie_3.jpg")) =
      cs ("movie/movie_3.jpg") := by
  constructor
  · intro video_uri file h
    rw [uploadKeyFor, if_neg h]
  · decide

/-- Claim C10 witness: the key layout statement instantiated at the
spec's example source and frame file. -/
theorem upload_key_layout_witness :
    ¬ (s3DirOf (cs ("https://host/movie.mp4")) = []) ∧
    uploadKeyFor (s3DirOf (cs ("https://host/movie.mp4"))) (cs ("/tmp/x/movie_3.jpg")) =
      s3DirOf (cs ("https://host/movie.mp4")) ++ '/' ::
        basenameChars (cs ("/tmp/x/movie_3.jpg")) :=
  ⟨by decide,
    upload_key_layout.1 (cs ("https://host/movie.mp4")) (cs ("/tmp/x/movie_3.jpg")) (by decide)⟩
